import Mathlib

/-!
Verification of the hero particle animation (`HeroAnimation` in js/main.js).

The renderer maintains a list of particles, each with position `(x, y)`,
velocity `(vx, vy)`, a size and an opacity.  Every animation frame it
advances each particle by its velocity, inverts a velocity component when
the particle crosses the corresponding canvas bound, draws connecting
lines between nearby particle pairs, and — when the mouse position is
set — draws a line from each nearby particle to the mouse and nudges the
particle 1% of the way toward it.

The JavaScript numbers are modelled by `ℚ` (the dynamics use only field
arithmetic), and the random source `Math.random()` by a stream
`rng : ℕ → ℚ` whose values are assumed to lie in `[0, 1)`.  Euclidean
distances, which the source computes with `Math.sqrt`, are modelled in
`ℝ` via `Real.sqrt`; the state-update functions branch on the equivalent
squared-distance comparisons so that they stay executable, and bridging
lemmas relate the two forms.
-/

namespace HeroAnim

/-- A particle of the hero animation: the object literal pushed by
`createParticles` (js/main.js lines 119-126). -/
structure Particle where
  x : ℚ
  y : ℚ
  vx : ℚ
  vy : ℚ
  size : ℚ
  opacity : ℚ
deriving DecidableEq, Repr, Inhabited

/-- One particle built from six consecutive draws of the random source, on a
canvas of width `W` and height `H` (js/main.js lines 119-126):
`x = Math.random() * width`, `y = Math.random() * height`,
`vx = (Math.random() - 0.5) * 0.5`, `vy = (Math.random() - 0.5) * 0.5`,
`size = Math.random() * 2 + 1`, `opacity = Math.random() * 0.5 + 0.1`. -/
def mkParticle (W H r1 r2 r3 r4 r5 r6 : ℚ) : Particle where
  x := r1 * W
  y := r2 * H
  vx := (r3 - 1/2) * (1/2)
  vy := (r4 - 1/2) * (1/2)
  size := r5 * 2 + 1
  opacity := r6 * (1/2) + 1/10

/-- The particle created at loop index `i` of `createParticles`, consuming the
random stream six values at a time. -/
def particleAt (rng : ℕ → ℚ) (W H : ℚ) (i : ℕ) : Particle :=
  mkParticle W H (rng (6*i)) (rng (6*i+1)) (rng (6*i+2)) (rng (6*i+3))
    (rng (6*i+4)) (rng (6*i+5))

/-- Target particle count from the viewport width
(`window.innerWidth < 768 ? 40 : 80`, js/main.js lines 85 and 104). -/
def particleCount (w : ℚ) : ℕ :=
  if w < 768 then 40 else 80

/-- `createParticles(addOnly)` (js/main.js lines 112-128): with
`addOnly = false` the particle array is reset and filled from index `0` up to
`target - 1`; with `addOnly = true` the existing array is kept and new
particles are pushed for indices `currentCount` up to `target - 1`. -/
def createParticles (addOnly : Bool) (rng : ℕ → ℚ) (W H : ℚ) (target : ℕ)
    (ps : List Particle) : List Particle :=
  let base := if addOnly then ps else []
  base ++ (List.range (target - base.length)).map
    (fun k => particleAt rng W H (base.length + k))

/-- `resize()` (js/main.js lines 100-110): recompute the target count from the
new viewport width; append missing particles (`createParticles(true)`) when
below target, truncate the tail (`splice(target)`) when above, leave the
array alone when equal. -/
def resize (rng : ℕ → ℚ) (newW newH : ℚ) (ps : List Particle) : List Particle :=
  let target := particleCount newW
  if ps.length < target then createParticles true rng newW newH target ps
  else if target < ps.length then ps.take target
  else ps

/-- The position-advance and edge-bounce step of `animate()`
(js/main.js lines 195-200): `p.x += p.vx; p.y += p.vy;` then
`if (p.x < 0 || p.x > width) p.vx *= -1;` and
`if (p.y < 0 || p.y > height) p.vy *= -1;`. -/
def moveBounce (W H : ℚ) (p : Particle) : Particle :=
  let x1 := p.x + p.vx
  let y1 := p.y + p.vy
  { p with
    x := x1
    y := y1
    vx := if x1 < 0 ∨ W < x1 then -p.vx else p.vx
    vy := if y1 < 0 ∨ H < y1 then -p.vy else p.vy }

/-- Squared distance from a particle to a point, `dx*dx + dy*dy` with
`dx = p.x - qx`, `dy = p.y - qy` (js/main.js lines 151-153 and 168-170). -/
def distSq (p : Particle) (qx qy : ℚ) : ℚ :=
  (p.x - qx) * (p.x - qx) + (p.y - qy) * (p.y - qy)

/-- Euclidean distance from a particle to a point, as the source computes it:
`Math.sqrt(dx*dx + dy*dy)`. -/
noncomputable def dist (p : Particle) (qx qy : ℚ) : ℝ :=
  Real.sqrt ((distSq p qx qy : ℚ) : ℝ)

/-- A connecting line is drawn between two particles when their distance is
below `connectionDistance = 120` (js/main.js line 155). -/
def pairLineDrawn (p q : Particle) : Prop :=
  dist p q.x q.y < 120

/-- Opacity of a particle-to-particle connecting line:
`(1 - distance/120) * 0.15` (js/main.js lines 156-157). -/
noncomputable def pairLineOpacity (p q : Particle) : ℝ :=
  (1 - dist p q.x q.y / 120) * (15/100)

/-- A line from a particle to the mouse is drawn when the distance is below
`mouseDistance = 180` (js/main.js line 172). -/
def mouseLineDrawn (p : Particle) (mx my : ℚ) : Prop :=
  dist p mx my < 180

/-- Opacity of a particle-to-mouse line: `(1 - distance/180) * 0.3`
(js/main.js lines 173-174). -/
noncomputable def mouseLineOpacity (p : Particle) (mx my : ℚ) : ℝ :=
  (1 - dist p mx my / 180) * (3/10)

/-- The mouse-attraction part of `drawLines` (js/main.js lines 167-186): when
the mouse is set and `distance < 180` and `distance > 50`, the particle moves
1% of the way toward the mouse (`p.x -= dx * 0.01; p.y -= dy * 0.01`).  The
branches are stated on the squared distance; `dsq < 180²` is equivalent to
`√dsq < 180` and `50² < dsq` to `50 < √dsq` (lemmas `dist_lt_iff` and
`lt_dist_iff` below). -/
def attract (mouse : Option (ℚ × ℚ)) (p : Particle) : Particle :=
  match mouse with
  | none => p
  | some (mx, my) =>
    if distSq p mx my < 180^2 ∧ 50^2 < distSq p mx my then
      { p with
        x := p.x - (p.x - mx) * (1/100)
        y := p.y - (p.y - my) * (1/100) }
    else p

/-- The full per-frame state update of one particle: the `animate()` body
moves and bounces it, then `drawLines(p, i)` applies the mouse attraction.
The pairwise and mouse lines drawn along the way do not mutate any particle
other than `p` itself. -/
def frameParticle (W H : ℚ) (mouse : Option (ℚ × ℚ)) (p : Particle) : Particle :=
  attract mouse (moveBounce W H p)

/-- One animation frame's effect on the particle array (js/main.js
lines 190-213): each particle is moved, bounced and mouse-attracted;
no particle is added or removed. -/
def frame (W H : ℚ) (mouse : Option (ℚ × ℚ)) (ps : List Particle) : List Particle :=
  ps.map (frameParticle W H mouse)

/-- The particle-to-mouse lines drawn during one frame: none when the mouse
is unset (`if (this.mouse.x != null)`, js/main.js line 167); otherwise one
line per particle whose post-move distance to the mouse is below 180, tagged
with the particle state at drawing time. -/
def pointerLines (W H : ℚ) (mouse : Option (ℚ × ℚ)) (ps : List Particle) :
    List Particle :=
  match mouse with
  | none => []
  | some (mx, my) =>
    (ps.map (moveBounce W H)).filter (fun p => distSq p mx my < 180^2)

/-- The renderer state built by the `HeroAnimation` constructor. -/
structure AnimState where
  particles : List Particle
  mouse : Option (ℚ × ℚ)
  listenersAdded : Bool
  animationStarted : Bool
deriving Repr

/-- The `HeroAnimation` constructor (js/main.js lines 73-91): when the canvas
element is absent it returns immediately (`if (!this.canvas) return;`) —
no particles, no listeners, no animation, no exception.  Otherwise `init()`
resizes, creates the particles, adds the listeners and starts the loop. -/
def construct (canvas : Option (ℚ × ℚ)) (rng : ℕ → ℚ) : Option AnimState :=
  match canvas with
  | none => none
  | some (w, h) =>
    some { particles := createParticles false rng w h (particleCount w) []
           mouse := none
           listenersAdded := true
           animationStarted := true }

/-! ### Bridging lemmas between `Math.sqrt` distances and squared distances -/

lemma distSq_nonneg (p : Particle) (qx qy : ℚ) : 0 ≤ distSq p qx qy :=
  add_nonneg (mul_self_nonneg _) (mul_self_nonneg _)

lemma dist_nonneg' (p : Particle) (qx qy : ℚ) : 0 ≤ dist p qx qy :=
  Real.sqrt_nonneg _

/-- The source's comparison `Math.sqrt(dx*dx + dy*dy) < c` agrees with the
squared comparison `dx*dx + dy*dy < c^2` used by the executable update. -/
lemma dist_lt_iff (p : Particle) (qx qy c : ℚ) (hc : 0 < c) :
    dist p qx qy < (c : ℝ) ↔ distSq p qx qy < c^2 := by
  rw [dist, Real.sqrt_lt' (by exact_mod_cast hc)]
  exact_mod_cast Iff.rfl

/-- The source's comparison `c < Math.sqrt(dx*dx + dy*dy)` agrees with the
squared comparison `c^2 < dx*dx + dy*dy`. -/
lemma lt_dist_iff (p : Particle) (qx qy c : ℚ) (hc : 0 ≤ c) :
    (c : ℝ) < dist p qx qy ↔ c^2 < distSq p qx qy := by
  rw [dist, Real.lt_sqrt (by exact_mod_cast hc)]
  exact_mod_cast Iff.rfl

lemma dist_eq_zero_iff (p : Particle) (qx qy : ℚ) :
    dist p qx qy = 0 ↔ distSq p qx qy = 0 := by
  rw [dist, Real.sqrt_eq_zero (by exact_mod_cast distSq_nonneg p qx qy)]
  exact_mod_cast Iff.rfl

/-! ### Bounds of freshly created particles -/

/-- Range of every field of a freshly created particle, given that the six
random draws lie in `[0, 1)`: position in `[0,W) × [0,H)`, velocity
components in `[-1/4, 1/4]`, size in `[1, 3]`, opacity in `[1/10, 6/10]`. -/
lemma mkParticle_bounds (W H r1 r2 r3 r4 r5 r6 : ℚ) (hW : 0 < W) (hH : 0 < H)
    (h1 : 0 ≤ r1 ∧ r1 < 1) (h2 : 0 ≤ r2 ∧ r2 < 1) (h3 : 0 ≤ r3 ∧ r3 < 1)
    (h4 : 0 ≤ r4 ∧ r4 < 1) (h5 : 0 ≤ r5 ∧ r5 < 1) (h6 : 0 ≤ r6 ∧ r6 < 1) :
    0 ≤ (mkParticle W H r1 r2 r3 r4 r5 r6).x ∧
      (mkParticle W H r1 r2 r3 r4 r5 r6).x < W ∧
    0 ≤ (mkParticle W H r1 r2 r3 r4 r5 r6).y ∧
      (mkParticle W H r1 r2 r3 r4 r5 r6).y < H ∧
    -(1/4) ≤ (mkParticle W H r1 r2 r3 r4 r5 r6).vx ∧
      (mkParticle W H r1 r2 r3 r4 r5 r6).vx ≤ 1/4 ∧
    -(1/4) ≤ (mkParticle W H r1 r2 r3 r4 r5 r6).vy ∧
      (mkParticle W H r1 r2 r3 r4 r5 r6).vy ≤ 1/4 ∧
    1 ≤ (mkParticle W H r1 r2 r3 r4 r5 r6).size ∧
      (mkParticle W H r1 r2 r3 r4 r5 r6).size ≤ 3 ∧
    1/10 ≤ (mkParticle W H r1 r2 r3 r4 r5 r6).opacity ∧
      (mkParticle W H r1 r2 r3 r4 r5 r6).opacity ≤ 6/10 := by
  obtain ⟨h1a, h1b⟩ := h1
  obtain ⟨h2a, h2b⟩ := h2
  obtain ⟨h3a, h3b⟩ := h3
  obtain ⟨h4a, h4b⟩ := h4
  obtain ⟨h5a, h5b⟩ := h5
  obtain ⟨h6a, h6b⟩ := h6
  simp only [mkParticle]
  refine ⟨mul_nonneg h1a hW.le, ?_, mul_nonneg h2a hH.le, ?_, ?_, ?_, ?_, ?_,
    ?_, ?_, ?_, ?_⟩ <;> nlinarith

lemma createParticles_fresh_length (rng : ℕ → ℚ) (W H : ℚ) (target : ℕ) :
    (createParticles false rng W H target []).length = target := by
  simp [createParticles]

lemma createParticles_fresh_mem (rng : ℕ → ℚ) (W H : ℚ) (target : ℕ)
    (p : Particle) (hp : p ∈ createParticles false rng W H target []) :
    ∃ i, i < target ∧ p = particleAt rng W H i := by
  simp only [createParticles, if_neg (Bool.false_ne_true), List.nil_append,
    List.length_nil, Nat.sub_zero, List.mem_map, List.mem_range] at hp
  obtain ⟨k, hk, hkp⟩ := hp
  exact ⟨k, hk, by simpa using hkp.symm⟩

/-- Every particle of a fresh `createParticles` run satisfies the field
bounds, provided the random source stays in `[0, 1)`. -/
lemma createParticles_fresh_bounds (rng : ℕ → ℚ) (W H : ℚ) (target : ℕ)
    (hrng : ∀ n, 0 ≤ rng n ∧ rng n < 1) (hW : 0 < W) (hH : 0 < H)
    (p : Particle) (hp : p ∈ createParticles false rng W H target []) :
    0 ≤ p.x ∧ p.x < W ∧ 0 ≤ p.y ∧ p.y < H ∧
    -(1/4) ≤ p.vx ∧ p.vx ≤ 1/4 ∧ -(1/4) ≤ p.vy ∧ p.vy ≤ 1/4 := by
  obtain ⟨i, _, rfl⟩ := createParticles_fresh_mem rng W H target p hp
  have h := mkParticle_bounds W H (rng (6*i)) (rng (6*i+1)) (rng (6*i+2))
    (rng (6*i+3)) (rng (6*i+4)) (rng (6*i+5)) hW hH (hrng _) (hrng _)
    (hrng _) (hrng _) (hrng _) (hrng _)
  exact ⟨h.1, h.2.1, h.2.2.1, h.2.2.2.1, h.2.2.2.2.1, h.2.2.2.2.2.1,
    h.2.2.2.2.2.2.1, h.2.2.2.2.2.2.2.1⟩

lemma particleAt_mem_fresh (rng : ℕ → ℚ) (W H : ℚ) (i target : ℕ)
    (h : i < target) :
    particleAt rng W H i ∈ createParticles false rng W H target [] := by
  simp only [createParticles, if_neg (Bool.false_ne_true), List.nil_append,
    List.length_nil, Nat.sub_zero, List.mem_map, List.mem_range]
  exact ⟨i, h, by simp⟩

/-! ### The bounce invariant

The bounce of `animate()` inverts a velocity component only after the
position has already stepped past the bound, so a particle can sit up to one
velocity-step outside `[0, W] × [0, H]` for a frame.  The invariant below
captures the reachable states of one axis under pointer-free dynamics: the
particle is inside the bound, or it overshot by at most one step and its
velocity already points back inside. -/

/-- One axis of the move-and-bounce step: new position `x + v`, and the
velocity inverted exactly when the new position crossed a bound. -/
def axisStep (W x v : ℚ) : ℚ × ℚ :=
  (x + v, if x + v < 0 ∨ W < x + v then -v else v)

/-- Reachable one-axis states: speed at most `1/4`, and either inside
`[0, W]`, or outside by less than one step with the velocity heading back. -/
def axisInv (W x v : ℚ) : Prop :=
  |v| ≤ 1/4 ∧
    ((0 ≤ x ∧ x ≤ W) ∨ (W < x ∧ x + v ≤ W ∧ v < 0) ∨ (x < 0 ∧ 0 ≤ x + v ∧ 0 < v))

lemma moveBounce_x (W H : ℚ) (p : Particle) :
    (moveBounce W H p).x = (axisStep W p.x p.vx).1 := rfl

lemma moveBounce_vx (W H : ℚ) (p : Particle) :
    (moveBounce W H p).vx = (axisStep W p.x p.vx).2 := rfl

lemma moveBounce_y (W H : ℚ) (p : Particle) :
    (moveBounce W H p).y = (axisStep H p.y p.vy).1 := rfl

lemma moveBounce_vy (W H : ℚ) (p : Particle) :
    (moveBounce W H p).vy = (axisStep H p.y p.vy).2 := rfl

lemma axisInv_step (W x v : ℚ) (hW : 1/4 ≤ W) (h : axisInv W x v) :
    axisInv W (axisStep W x v).1 (axisStep W x v).2 := by
  obtain ⟨hv, hcase⟩ := h
  have hv1 : -(1/4 : ℚ) ≤ v := neg_le_of_abs_le hv
  have hv2 : v ≤ 1/4 := le_of_abs_le hv
  simp only [axisStep]
  rcases hcase with ⟨h0, h1⟩ | ⟨h0, h1, h2⟩ | ⟨h0, h1, h2⟩
  · by_cases hb : x + v < 0 ∨ W < x + v
    · rw [if_pos hb]
      refine ⟨by rwa [abs_neg], ?_⟩
      rcases hb with hb | hb
      · exact Or.inr (Or.inr ⟨hb, by linarith, by linarith⟩)
      · exact Or.inr (Or.inl ⟨hb, by linarith, by linarith⟩)
    · rw [if_neg hb]
      push_neg at hb
      exact ⟨hv, Or.inl ⟨hb.1, hb.2⟩⟩
  · have hb : ¬ (x + v < 0 ∨ W < x + v) := by
      rintro (hc | hc) <;> linarith
    rw [if_neg hb]
    exact ⟨hv, Or.inl ⟨by linarith, h1⟩⟩
  · have hb : ¬ (x + v < 0 ∨ W < x + v) := by
      rintro (hc | hc) <;> linarith
    rw [if_neg hb]
    exact ⟨hv, Or.inl ⟨h1, by linarith⟩⟩

lemma axisInv_bounds (W x v : ℚ) (hW : 0 ≤ W) (h : axisInv W x v) :
    -(1/4) ≤ x ∧ x ≤ W + 1/4 := by
  obtain ⟨hv, hcase⟩ := h
  have hv1 : -(1/4 : ℚ) ≤ v := neg_le_of_abs_le hv
  have hv2 : v ≤ 1/4 := le_of_abs_le hv
  rcases hcase with ⟨h0, h1⟩ | ⟨h0, h1, h2⟩ | ⟨h0, h1, h2⟩ <;>
    constructor <;> linarith

/-- The invariant, on both axes of a particle. -/
def particleInv (W H : ℚ) (p : Particle) : Prop :=
  axisInv W p.x p.vx ∧ axisInv H p.y p.vy

lemma particleInv_moveBounce (W H : ℚ) (p : Particle) (hW : 1/4 ≤ W)
    (hH : 1/4 ≤ H) (h : particleInv W H p) :
    particleInv W H (moveBounce W H p) := by
  refine ⟨?_, ?_⟩
  · rw [moveBounce_x, moveBounce_vx]
    exact axisInv_step W p.x p.vx hW h.1
  · rw [moveBounce_y, moveBounce_vy]
    exact axisInv_step H p.y p.vy hH h.2

lemma particleInv_iter (W H : ℚ) (hW : 1/4 ≤ W) (hH : 1/4 ≤ H) (n : ℕ)
    (ps : List Particle) (h : ∀ p ∈ ps, particleInv W H p) :
    ∀ p ∈ (frame W H none)^[n] ps, particleInv W H p := by
  induction n generalizing ps with
  | zero => simpa using h
  | succ n ih =>
    rw [Function.iterate_succ_apply]
    apply ih
    intro p hp
    simp only [frame, List.mem_map] at hp
    obtain ⟨q, hq, rfl⟩ := hp
    have hmb := particleInv_moveBounce W H q hW hH (h q hq)
    simpa [frameParticle, attract] using hmb

/-! ### Concrete data used by counterexamples and witnesses -/

/-- A random stream whose first particle starts at `x = 99.9` with
`vx = 0.2`; all values lie in `[0, 1)`. -/
def cexRng : ℕ → ℚ :=
  fun n => if n = 0 then 999/1000 else if n = 2 then 9/10 else 1/2

/-- Initial particles on a `100 × 100` canvas drawn from `cexRng`. -/
def cexInit : List Particle :=
  createParticles false cexRng 100 100 (particleCount 100) []

/-- The constant random stream returning `1/2`. -/
def halfRng : ℕ → ℚ := fun _ => 1/2

/-- A one-particle array used to exercise `resize`. -/
def demoOne : List Particle := [particleAt halfRng 1 1 0]

lemma createParticles_addOnly (rng : ℕ → ℚ) (W H : ℚ) (target : ℕ)
    (ps : List Particle) :
    createParticles true rng W H target ps =
      ps ++ (List.range (target - ps.length)).map
        (fun k => particleAt rng W H (ps.length + k)) := by
  simp [createParticles]

/-- The particle `(0, 0)` used to exhibit a zero-distance pair. -/
def p0 : Particle := ⟨0, 0, 0, 0, 1, 1⟩

/-- The particle of the spec's pointer scenario, at `(520, 400)`. -/
def c4Particle : Particle := ⟨520, 400, 0, 0, 2, 1/2⟩

/-- A particle at `(600, 400)`: distance `100` from the pointer at
`(500, 400)`, inside the attraction band `(50, 180)`. -/
def c4Far : Particle := ⟨600, 400, 0, 0, 2, 1/2⟩

/-- A particle about to cross the right bound: `x + vx = 101 > 100`. -/
def pB : Particle := ⟨99, 50, 2, 0, 1, 1⟩

lemma attract_vx (mouse : Option (ℚ × ℚ)) (p : Particle) :
    (attract mouse p).vx = p.vx := by
  cases mouse with
  | none => rfl
  | some m =>
    obtain ⟨mx, my⟩ := m
    simp only [attract]
    split <;> rfl

lemma attract_vy (mouse : Option (ℚ × ℚ)) (p : Particle) :
    (attract mouse p).vy = p.vy := by
  cases mouse with
  | none => rfl
  | some m =>
    obtain ⟨mx, my⟩ := m
    simp only [attract]
    split <;> rfl

lemma attract_size (mouse : Option (ℚ × ℚ)) (p : Particle) :
    (attract mouse p).size = p.size := by
  cases mouse with
  | none => rfl
  | some m =>
    obtain ⟨mx, my⟩ := m
    simp only [attract]
    split <;> rfl

lemma attract_opacity (mouse : Option (ℚ × ℚ)) (p : Particle) :
    (attract mouse p).opacity = p.opacity := by
  cases mouse with
  | none => rfl
  | some m =>
    obtain ⟨mx, my⟩ := m
    simp only [attract]
    split <;> rfl

lemma resize_getElem_keep (rng : ℕ → ℚ) (newW newH : ℚ) (ps : List Particle)
    (i : ℕ) (h1 : i < ps.length) (h2 : i < particleCount newW) :
    (resize rng newW newH ps)[i]? = ps[i]? := by
  unfold resize
  by_cases hlt : ps.length < particleCount newW
  · rw [if_pos hlt, createParticles_addOnly]
    exact List.getElem?_append_left h1
  · rw [if_neg hlt]
    by_cases hgt : particleCount newW < ps.length
    · rw [if_pos hgt]
      exact List.getElem?_take_of_lt h2
    · rw [if_neg hgt]

/-! ### Claim theorems -/

/-- C1, counterexample: the claim that every particle stays within
`0 ≤ x ≤ W` and `0 ≤ y ≤ H` after any number of update steps fails.  On a
`100 × 100` canvas, the random stream `cexRng` initialises particle 0 at
`x = 99.9` with `vx = 0.2`; after one frame its `x` is `100.1 > 100`,
because the bounce inverts the velocity without clamping the position back
inside the bound. -/
theorem C1_counterexample :
    ¬ ∀ (n : ℕ), ∀ p ∈ (frame 100 100 none)^[n] cexInit,
        0 ≤ p.x ∧ p.x ≤ 100 ∧ 0 ≤ p.y ∧ p.y ≤ 100 := by
  intro hclaim
  have hmem0 : particleAt cexRng 100 100 0 ∈ cexInit :=
    particleAt_mem_fresh cexRng 100 100 0 _ (by norm_num [particleCount])
  have hmem1 : frameParticle 100 100 none (particleAt cexRng 100 100 0) ∈
      (frame 100 100 none)^[1] cexInit := by
    rw [Function.iterate_one]
    exact List.mem_map_of_mem _ hmem0
  have hx : (frameParticle 100 100 none (particleAt cexRng 100 100 0)).x
      = 1001/10 := by
    norm_num [frameParticle, particleAt, mkParticle, moveBounce, attract, cexRng]
  have h := (hclaim 1 _ hmem1).2.1
  rw [hx] at h
  norm_num at h

/-- C1, amended: under pointer-free dynamics on a fixed surface with
`W, H ≥ 1/4`, every particle stays within the surface bounds enlarged by one
maximal velocity step: after any number of frames from initialization,
`-1/4 ≤ x ≤ W + 1/4` and `-1/4 ≤ y ≤ H + 1/4`.  The bounce keeps particles
within these enlarged bounds; a particle may exceed the exact bounds by at
most one step (at most `1/4`, the maximal initial speed) for one frame
before the inverted velocity carries it back. -/
theorem C1_bounds (rng : ℕ → ℚ) (W H : ℚ)
    (hrng : ∀ n, 0 ≤ rng n ∧ rng n < 1) (hW : 1/4 ≤ W) (hH : 1/4 ≤ H)
    (n : ℕ) :
    ∀ p ∈ (frame W H none)^[n]
        (createParticles false rng W H (particleCount W) []),
      -(1/4) ≤ p.x ∧ p.x ≤ W + 1/4 ∧ -(1/4) ≤ p.y ∧ p.y ≤ H + 1/4 := by
  have hW0 : (0:ℚ) < W := lt_of_lt_of_le (by norm_num) hW
  have hH0 : (0:ℚ) < H := lt_of_lt_of_le (by norm_num) hH
  have hinit : ∀ p ∈ createParticles false rng W H (particleCount W) [],
      particleInv W H p := by
    intro p hp
    obtain ⟨hx0, hx1, hy0, hy1, hvx0, hvx1, hvy0, hvy1⟩ :=
      createParticles_fresh_bounds rng W H _ hrng hW0 hH0 p hp
    exact ⟨⟨abs_le.mpr ⟨hvx0, hvx1⟩, Or.inl ⟨hx0, hx1.le⟩⟩,
      ⟨abs_le.mpr ⟨hvy0, hvy1⟩, Or.inl ⟨hy0, hy1.le⟩⟩⟩
  intro p hp
  have hinv := particleInv_iter W H hW hH n _ hinit p hp
  have hx := axisInv_bounds W p.x p.vx hW0.le hinv.1
  have hy := axisInv_bounds H p.y p.vy hH0.le hinv.2
  exact ⟨hx.1, hx.2, hy.1, hy.2⟩

/-- C1, witness: the amended bound instantiated on a `1 × 1` surface with
the constant random stream, after one frame, for the first particle. -/
theorem C1_bounds_witness :
    -(1/4 : ℚ) ≤ (frameParticle 1 1 none (particleAt halfRng 1 1 0)).x ∧
    (frameParticle 1 1 none (particleAt halfRng 1 1 0)).x ≤ 1 + 1/4 ∧
    -(1/4 : ℚ) ≤ (frameParticle 1 1 none (particleAt halfRng 1 1 0)).y ∧
    (frameParticle 1 1 none (particleAt halfRng 1 1 0)).y ≤ 1 + 1/4 :=
  C1_bounds halfRng 1 1 (fun n => by norm_num [halfRng]) (by norm_num)
    (by norm_num) 1 (frameParticle 1 1 none (particleAt halfRng 1 1 0))
    (by rw [Function.iterate_one]
        exact List.mem_map_of_mem _
          (particleAt_mem_fresh halfRng 1 1 0 _ (by norm_num [particleCount])))

/-- C2: after a resize, the particle array length equals the new target
count (`40` below viewport width `768`, else `80`); indices present both
before and after keep exactly their prior particle; growing appends fresh
randomly-initialized particles at the tail, shrinking truncates the tail. -/
theorem C2_resize (rng : ℕ → ℚ) (newW newH : ℚ) (ps : List Particle) :
    (resize rng newW newH ps).length = particleCount newW ∧
    (∀ i, i < ps.length → i < particleCount newW →
      (resize rng newW newH ps)[i]? = ps[i]?) ∧
    (ps.length < particleCount newW →
      resize rng newW newH ps =
        ps ++ (List.range (particleCount newW - ps.length)).map
          (fun k => particleAt rng newW newH (ps.length + k))) ∧
    (particleCount newW < ps.length →
      resize rng newW newH ps = ps.take (particleCount newW)) := by
  unfold resize
  by_cases hlt : ps.length < particleCount newW
  · rw [if_pos hlt]
    rw [createParticles_addOnly]
    refine ⟨?_, ?_, ?_, ?_⟩
    · simp only [List.length_append, List.length_map, List.length_range]
      omega
    · intro i hi _
      exact List.getElem?_append_left hi
    · intro _
      rfl
    · intro hgt
      omega
  · rw [if_neg hlt]
    by_cases hgt : particleCount newW < ps.length
    · rw [if_pos hgt]
      refine ⟨?_, ?_, ?_, ?_⟩
      · simp only [List.length_take]
        omega
      · intro i _ hi
        exact List.getElem?_take_of_lt hi
      · intro h
        omega
      · intro _
        rfl
    · rw [if_neg hgt]
      have heq : ps.length = particleCount newW := by omega
      exact ⟨heq, fun i _ _ => rfl, fun h => absurd h hlt, fun h => absurd h hgt⟩

/-- C2, witness: resizing a one-particle array to viewport width `1000`
brings the length to the target `80` and keeps particle `0` unchanged. -/
theorem C2_resize_witness :
    (resize halfRng 1000 800 demoOne).length = particleCount 1000 ∧
    (resize halfRng 1000 800 demoOne)[0]? = demoOne[0]? :=
  ⟨(C2_resize halfRng 1000 800 demoOne).1,
    (C2_resize halfRng 1000 800 demoOne).2.1 0 (by norm_num [demoOne])
      (by norm_num [particleCount])⟩

/-- C3: a particle-pair connecting line is drawn exactly when the squared
distance is below `120²` (equivalently, the Euclidean distance is below
`120`); no line is drawn at distance `120` or more; the opacity is
`(1 - distance/120) * 0.15`, which equals its maximum `0.15` at distance
`0` and never exceeds `0.15`. -/
theorem C3_pair_lines (p q : Particle) :
    (pairLineDrawn p q ↔ distSq p q.x q.y < 120^2) ∧
    (¬ pairLineDrawn p q ↔ (120 : ℝ) ≤ dist p q.x q.y) ∧
    (dist p q.x q.y = 0 → pairLineOpacity p q = 15/100) ∧
    pairLineOpacity p q ≤ 15/100 := by
  refine ⟨?_, ?_, ?_, ?_⟩
  · unfold pairLineDrawn
    rw [show (120:ℝ) = ((120:ℚ):ℝ) by norm_num]
    exact dist_lt_iff p q.x q.y 120 (by norm_num)
  · unfold pairLineDrawn
    exact not_lt
  · intro h
    unfold pairLineOpacity
    rw [h]
    norm_num
  · unfold pairLineOpacity
    have h0 : 0 ≤ dist p q.x q.y / 120 := by
      have := dist_nonneg' p q.x q.y
      positivity

    nlinarith [h0]

/-- C3, witness: two particles at the same position are at distance `0` and
their line has the maximal opacity `0.15`. -/
theorem C3_pair_lines_witness : pairLineOpacity p0 p0 = 15/100 :=
  (C3_pair_lines p0 p0).2.2.1 (by
    rw [dist_eq_zero_iff]
    norm_num [distSq, p0])

/-- C4, counterexample: with the pointer at `(500, 400)` and a particle at
`(520, 400)` the distance is `20`, which is not greater than `50`, so the
code applies no nudge at all: the particle is unchanged, while the claim
asserts its `x` decreases by `(520 - 500) * 0.01 = 0.2`. -/
theorem C4_counterexample :
    attract (some (500, 400)) c4Particle = c4Particle ∧
    c4Particle.x - (c4Particle.x - 500) * (1/100) ≠ c4Particle.x := by
  constructor
  · norm_num [attract, distSq, c4Particle]
  · norm_num [c4Particle]

/-- C4, amended: a pointer line is drawn exactly when the distance to the
pointer is below `180` (equivalently, squared distance below `180²`), with
opacity `(1 - d/180) * 0.3`; when additionally the distance exceeds `50`
the particle moves 1% of the way toward the pointer; at distance at most
`50` the particle is not moved.  In particular the particle at `(520, 400)`
with the pointer at `(500, 400)` (distance `20 ≤ 50`) receives no nudge. -/
theorem C4_attraction (p : Particle) (mx my : ℚ) :
    (mouseLineDrawn p mx my ↔ distSq p mx my < 180^2) ∧
    (mouseLineDrawn p mx my →
      mouseLineOpacity p mx my = (1 - dist p mx my / 180) * (3/10)) ∧
    (dist p mx my < 180 ∧ (50:ℝ) < dist p mx my →
      (attract (some (mx, my)) p).x = p.x - (p.x - mx) * (1/100) ∧
      (attract (some (mx, my)) p).y = p.y - (p.y - my) * (1/100)) ∧
    (dist p mx my ≤ 50 → attract (some (mx, my)) p = p) ∧
    attract (some (500, 400)) c4Particle = c4Particle := by
  refine ⟨?_, ?_, ?_, ?_, ?_⟩
  · unfold mouseLineDrawn
    rw [show (180:ℝ) = ((180:ℚ):ℝ) by norm_num]
    exact dist_lt_iff p mx my 180 (by norm_num)
  · intro _
    rfl
  · rintro ⟨hlt, hgt⟩
    have h1 : distSq p mx my < 180^2 := by
      rw [← dist_lt_iff p mx my 180 (by norm_num)]
      rwa [show ((180:ℚ):ℝ) = (180:ℝ) by norm_num]
    have h2 : (50:ℚ)^2 < distSq p mx my := by
      rw [← lt_dist_iff p mx my 50 (by norm_num)]
      rwa [show ((50:ℚ):ℝ) = (50:ℝ) by norm_num]
    simp only [attract]
    rw [if_pos ⟨h1, h2⟩]
    exact ⟨rfl, rfl⟩
  · intro hle
    have h2 : ¬ ((50:ℚ)^2 < distSq p mx my) := by
      rw [← lt_dist_iff p mx my 50 (by norm_num)]
      push_neg
      rwa [show ((50:ℚ):ℝ) = (50:ℝ) by norm_num]
    simp only [attract]
    rw [if_neg]
    rintro ⟨_, hc⟩
    exact h2 hc
  · norm_num [attract, distSq, c4Particle]

/-- C4, witness: a particle at `(600, 400)` with the pointer at
`(500, 400)` is at distance `100`, inside the attraction band, and moves to
`x = 600 - 100 * 0.01 = 599` while `y` stays `400`. -/
theorem C4_attraction_witness :
    (attract (some (500, 400)) c4Far).x = 599 ∧
    (attract (some (500, 400)) c4Far).y = 400 := by
  have hds : distSq c4Far 500 400 = 10000 := by norm_num [distSq, c4Far]
  have hd : dist c4Far 500 400 = 100 := by
    rw [dist, hds, show ((10000:ℚ):ℝ) = (100:ℝ)^2 by norm_num]
    exact Real.sqrt_sq (by norm_num)
  obtain ⟨hx, hy⟩ := (C4_attraction c4Far 500 400).2.2.1
    ⟨by rw [hd]; norm_num, by rw [hd]; norm_num⟩
  refine ⟨?_, ?_⟩
  · rw [hx]
    norm_num [c4Far]
  · rw [hy]
    norm_num [c4Far]

/-- C5: the target particle count is `40` below viewport width `768` and
`80` otherwise, and initialization creates exactly that many particles; on
a `1000 × 800` surface the particle array has length `80` and every
particle's position lies in `[0, 1000) × [0, 800)`. -/
theorem C5_init (rng : ℕ → ℚ) (hrng : ∀ n, 0 ≤ rng n ∧ rng n < 1) :
    (∀ W : ℚ, W < 768 → particleCount W = 40) ∧
    (∀ W : ℚ, 768 ≤ W → particleCount W = 80) ∧
    (∀ (W H : ℚ),
      (createParticles false rng W H (particleCount W) []).length
        = particleCount W) ∧
    (createParticles false rng 1000 800 (particleCount 1000) []).length = 80 ∧
    ∀ p ∈ createParticles false rng 1000 800 (particleCount 1000) [],
      0 ≤ p.x ∧ p.x < 1000 ∧ 0 ≤ p.y ∧ p.y < 800 := by
  refine ⟨?_, ?_, ?_, ?_, ?_⟩
  · intro W hW
    simp [particleCount, hW]
  · intro W hW
    simp [particleCount, not_lt.mpr hW]
  · intro W H
    exact createParticles_fresh_length rng W H _
  · rw [createParticles_fresh_length]
    norm_num [particleCount]
  · intro p hp
    have h := createParticles_fresh_bounds rng 1000 800 _ hrng
      (by norm_num) (by norm_num) p hp
    exact ⟨h.1, h.2.1, h.2.2.1, h.2.2.2.1⟩

/-- C5, witness: with the constant random stream the `1000 × 800` surface
gets `80` particles and the first particle's position is in bounds. -/
theorem C5_init_witness :
    (createParticles false halfRng 1000 800 (particleCount 1000) []).length = 80 ∧
    (0 ≤ (particleAt halfRng 1000 800 0).x ∧
      (particleAt halfRng 1000 800 0).x < 1000 ∧
      0 ≤ (particleAt halfRng 1000 800 0).y ∧
      (particleAt halfRng 1000 800 0).y < 800) := by
  have h := C5_init halfRng (fun n => by norm_num [halfRng])
  exact ⟨h.2.2.2.1, h.2.2.2.2 (particleAt halfRng 1000 800 0)
    (particleAt_mem_fresh halfRng 1000 800 0 _ (by norm_num [particleCount]))⟩

/-- C6: for every possible value of the random source in `[0, 1)`, a newly
created particle has position in `[0, W) × [0, H)`, velocity components in
`[-1/4, 1/4]`, size in `[1, 3]` and opacity in `[0.1, 0.6]`. -/
theorem C6_fresh_fields (W H r1 r2 r3 r4 r5 r6 : ℚ) (hW : 0 < W) (hH : 0 < H)
    (h1 : 0 ≤ r1 ∧ r1 < 1) (h2 : 0 ≤ r2 ∧ r2 < 1) (h3 : 0 ≤ r3 ∧ r3 < 1)
    (h4 : 0 ≤ r4 ∧ r4 < 1) (h5 : 0 ≤ r5 ∧ r5 < 1) (h6 : 0 ≤ r6 ∧ r6 < 1) :
    0 ≤ (mkParticle W H r1 r2 r3 r4 r5 r6).x ∧
      (mkParticle W H r1 r2 r3 r4 r5 r6).x < W ∧
    0 ≤ (mkParticle W H r1 r2 r3 r4 r5 r6).y ∧
      (mkParticle W H r1 r2 r3 r4 r5 r6).y < H ∧
    -(1/4) ≤ (mkParticle W H r1 r2 r3 r4 r5 r6).vx ∧
      (mkParticle W H r1 r2 r3 r4 r5 r6).vx ≤ 1/4 ∧
    -(1/4) ≤ (mkParticle W H r1 r2 r3 r4 r5 r6).vy ∧
      (mkParticle W H r1 r2 r3 r4 r5 r6).vy ≤ 1/4 ∧
    1 ≤ (mkParticle W H r1 r2 r3 r4 r5 r6).size ∧
      (mkParticle W H r1 r2 r3 r4 r5 r6).size ≤ 3 ∧
    1/10 ≤ (mkParticle W H r1 r2 r3 r4 r5 r6).opacity ∧
      (mkParticle W H r1 r2 r3 r4 r5 r6).opacity ≤ 6/10 :=
  mkParticle_bounds W H r1 r2 r3 r4 r5 r6 hW hH h1 h2 h3 h4 h5 h6

/-- C6, witness: the field bounds at the midpoint value `1/2` of the random
source on a `1 × 1` surface. -/
theorem C6_fresh_fields_witness :
    0 ≤ (mkParticle 1 1 (1/2) (1/2) (1/2) (1/2) (1/2) (1/2)).x ∧
      (mkParticle 1 1 (1/2) (1/2) (1/2) (1/2) (1/2) (1/2)).x < 1 ∧
    0 ≤ (mkParticle 1 1 (1/2) (1/2) (1/2) (1/2) (1/2) (1/2)).y ∧
      (mkParticle 1 1 (1/2) (1/2) (1/2) (1/2) (1/2) (1/2)).y < 1 ∧
    -(1/4) ≤ (mkParticle 1 1 (1/2) (1/2) (1/2) (1/2) (1/2) (1/2)).vx ∧
      (mkParticle 1 1 (1/2) (1/2) (1/2) (1/2) (1/2) (1/2)).vx ≤ 1/4 ∧
    -(1/4) ≤ (mkParticle 1 1 (1/2) (1/2) (1/2) (1/2) (1/2) (1/2)).vy ∧
      (mkParticle 1 1 (1/2) (1/2) (1/2) (1/2) (1/2) (1/2)).vy ≤ 1/4 ∧
    1 ≤ (mkParticle 1 1 (1/2) (1/2) (1/2) (1/2) (1/2) (1/2)).size ∧
      (mkParticle 1 1 (1/2) (1/2) (1/2) (1/2) (1/2) (1/2)).size ≤ 3 ∧
    1/10 ≤ (mkParticle 1 1 (1/2) (1/2) (1/2) (1/2) (1/2) (1/2)).opacity ∧
      (mkParticle 1 1 (1/2) (1/2) (1/2) (1/2) (1/2) (1/2)).opacity ≤ 6/10 :=
  C6_fresh_fields 1 1 (1/2) (1/2) (1/2) (1/2) (1/2) (1/2) (by norm_num)
    (by norm_num) (by norm_num) (by norm_num) (by norm_num) (by norm_num)
    (by norm_num) (by norm_num)

/-- C7: with the pointer unset, no pointer line is drawn, the frame update
is exactly move-and-bounce on every particle, and the position advance is
exactly the velocity. -/
theorem C7_pointer_unset (W H : ℚ) (ps : List Particle) :
    pointerLines W H none ps = [] ∧
    frame W H none ps = ps.map (moveBounce W H) ∧
    ∀ p : Particle, (moveBounce W H p).x = p.x + p.vx ∧
      (moveBounce W H p).y = p.y + p.vy :=
  ⟨rfl, rfl, fun _ => ⟨rfl, rfl⟩⟩

/-- C8: when the canvas element is absent, construction returns no renderer
state at all — no particles, no listeners, no animation started. -/
theorem C8_missing_canvas (rng : ℕ → ℚ) : construct none rng = none := rfl

/-- C9: the per-frame update advances the position by exactly the velocity;
a velocity component is inverted precisely when the new position crossed the
corresponding bound, and is untouched otherwise; consequently, over the full
per-frame update including the pointer attraction, `|vx|` and `|vy|` are
preserved. -/
theorem C9_elastic_bounce (W H : ℚ) (mouse : Option (ℚ × ℚ)) (p : Particle) :
    ((moveBounce W H p).x = p.x + p.vx ∧ (moveBounce W H p).y = p.y + p.vy) ∧
    ((p.x + p.vx < 0 ∨ W < p.x + p.vx) → (moveBounce W H p).vx = -p.vx) ∧
    (¬ (p.x + p.vx < 0 ∨ W < p.x + p.vx) → (moveBounce W H p).vx = p.vx) ∧
    ((p.y + p.vy < 0 ∨ H < p.y + p.vy) → (moveBounce W H p).vy = -p.vy) ∧
    (¬ (p.y + p.vy < 0 ∨ H < p.y + p.vy) → (moveBounce W H p).vy = p.vy) ∧
    |(frameParticle W H mouse p).vx| = |p.vx| ∧
    |(frameParticle W H mouse p).vy| = |p.vy| := by
  refine ⟨⟨rfl, rfl⟩, ?_, ?_, ?_, ?_, ?_, ?_⟩
  · intro h
    show (if p.x + p.vx < 0 ∨ W < p.x + p.vx then -p.vx else p.vx) = -p.vx
    rw [if_pos h]
  · intro h
    show (if p.x + p.vx < 0 ∨ W < p.x + p.vx then -p.vx else p.vx) = p.vx
    rw [if_neg h]
  · intro h
    show (if p.y + p.vy < 0 ∨ H < p.y + p.vy then -p.vy else p.vy) = -p.vy
    rw [if_pos h]
  · intro h
    show (if p.y + p.vy < 0 ∨ H < p.y + p.vy then -p.vy else p.vy) = p.vy
    rw [if_neg h]
  · have h1 : (frameParticle W H mouse p).vx = (moveBounce W H p).vx :=
      attract_vx mouse (moveBounce W H p)
    rw [h1, moveBounce_vx]
    simp only [axisStep]
    split
    · exact abs_neg _
    · rfl
  · have h1 : (frameParticle W H mouse p).vy = (moveBounce W H p).vy :=
      attract_vy mouse (moveBounce W H p)
    rw [h1, moveBounce_vy]
    simp only [axisStep]
    split
    · exact abs_neg _
    · rfl

/-- C9, witness: the particle at `x = 99` with `vx = 2` crosses the right
bound of a `100 × 100` canvas, so `vx` is inverted while `vy` is untouched
and both speeds are preserved. -/
theorem C9_elastic_bounce_witness :
    (moveBounce 100 100 pB).x = pB.x + pB.vx ∧
    (moveBounce 100 100 pB).vx = -pB.vx ∧
    (moveBounce 100 100 pB).vy = pB.vy ∧
    |(frameParticle 100 100 none pB).vx| = |pB.vx| :=
  ⟨(C9_elastic_bounce 100 100 none pB).1.1,
   (C9_elastic_bounce 100 100 none pB).2.1 (by norm_num [pB]),
   (C9_elastic_bounce 100 100 none pB).2.2.2.2.1 (by norm_num [pB]),
   (C9_elastic_bounce 100 100 none pB).2.2.2.2.2.1⟩

/-- C10: the per-frame update changes only position and velocity — the size
and opacity assigned at creation survive every frame — and a resize keeps
size and opacity (indeed the whole particle) at every surviving index. -/
theorem C10_cosmetic_fields (W H : ℚ) (mouse : Option (ℚ × ℚ))
    (p : Particle) (rng : ℕ → ℚ) (newW newH : ℚ) (ps : List Particle) :
    ((frameParticle W H mouse p).size = p.size ∧
      (frameParticle W H mouse p).opacity = p.opacity) ∧
    (∀ i, i < ps.length → i < particleCount newW →
      ((resize rng newW newH ps)[i]?).map Particle.size
          = (ps[i]?).map Particle.size ∧
      ((resize rng newW newH ps)[i]?).map Particle.opacity
          = (ps[i]?).map Particle.opacity) := by
  refine ⟨⟨?_, ?_⟩, ?_⟩
  · exact attract_size mouse (moveBounce W H p)
  · exact attract_opacity mouse (moveBounce W H p)
  · intro i h1 h2
    rw [resize_getElem_keep rng newW newH ps i h1 h2]
    exact ⟨rfl, rfl⟩

/-- C10, witness: a bouncing frame keeps the size of a concrete particle,
and a concrete grow-resize keeps the size at index `0`. -/
theorem C10_cosmetic_fields_witness :
    (frameParticle 100 100 none pB).size = pB.size ∧
    ((resize halfRng 1000 800 demoOne)[0]?).map Particle.size
        = (demoOne[0]?).map Particle.size :=
  ⟨(C10_cosmetic_fields 100 100 none pB halfRng 1000 800 demoOne).1.1,
   ((C10_cosmetic_fields 100 100 none pB halfRng 1000 800 demoOne).2 0
      (by norm_num [demoOne]) (by norm_num [particleCount])).1⟩

end HeroAnim
